import Mathlib

attribute [local semireducible] Rat.add Rat.mul Rat.sub Rat.inv

/-!
Shallow embedding of the constrained k-medoids optimizer in
src/center_optimizer.cpp.  C++ doubles are modelled as rationals; the
transcendental primitives used by the haversine fallback (sin, cos, sqrt,
atan2, the constant M_PI) are abstracted into a `Geo` record of rational
functions, so that the dispatch logic of the distance oracle and the whole
search remain executable.  The mt19937 random stream is modelled as the
stream of draws it produces: a list of naturals, where a uniform draw over
n values consumes one element and reduces it modulo n.
-/

namespace CenterOptimizer

/-- Abstract transcendental primitives used by the haversine formula. -/
structure Geo where
  gsin : ℚ → ℚ
  gcos : ℚ → ℚ
  gsqrt : ℚ → ℚ
  gatan2 : ℚ → ℚ → ℚ
  gpi : ℚ

/-- Mirror of struct Point; the default constructor zero-initialises the
numeric fields and leaves the land type empty. -/
structure Point where
  id : Int
  lat : ℚ
  lon : ℚ
  resource_quantity : ℚ
  land_type : String
  slope : ℚ
  elevation : ℚ
deriving DecidableEq

instance : Inhabited Point := ⟨⟨0, 0, 0, 0, "", 0, 0⟩⟩

/-- Mirror of the KMedoidsOptimizer member state after loading.  The
distance matrix is keyed by the (stringified, hence injectively encoded)
point identifiers; we key it by the identifiers directly. -/
structure Optimizer where
  points : List Point
  dm : Int → Int → Option ℚ
  k : Nat
  min_distance_km : ℚ
  exclude_land_types : List String
  max_slope : ℚ
  geo : Geo

/-- The stream of draws produced by the seeded mt19937 engine. -/
abbrev Rng : Type := List Nat

/-- One uniform draw over n values: consume one stream element, reduce
modulo n (an exhausted stream yields 0). -/
def draw (r : Rng) (n : Nat) : Nat × Rng :=
  match r with
  | [] => (0, [])
  | x :: xs => (x % n, xs)

/-- The exact value of std::numeric_limits of double max, that is
2 ^ 1024 - 2 ^ 971, written as a literal so that it reduces fast (the
equation is proved below as DBL_MAX_eq). -/
def DBL_MAX : ℚ := 179769313486231570814527423731704356798070567525844996598917476803157260780028538760589558632766878171540458953514382464234321326889464182768467546703537516986049910576551282076245490090389328944075868508455133942304583236903222948165808559332123348274797826204144723168738177180919299881250404026184124858368

/-- The fixed local-search round cap (const int max_iterations = 50). -/
def max_iterations : Nat := 50

/-- points[i] with the default Point for an out-of-range index. -/
def pget (st : Optimizer) (i : Nat) : Point :=
  st.points.getD i default

/-- The linear scan in get_distance locating the record of an identifier:
the last matching record wins; an unmatched identifier yields the
default-constructed Point. -/
def locate (st : Optimizer) (i : Int) : Point :=
  st.points.foldl (fun acc p => if p.id = i then p else acc) default

/-- Transcription of haversine_distance: spherical law of haversines with
Earth radius 6371000 m, over the abstract transcendental primitives. -/
def haversine_distance (g : Geo) (lat1 lon1 lat2 lon2 : ℚ) : ℚ :=
  let R : ℚ := 6371000
  let dlat := (lat2 - lat1) * g.gpi / 180
  let dlon := (lon2 - lon1) * g.gpi / 180
  let a := g.gsin (dlat / 2) * g.gsin (dlat / 2) +
    g.gcos (lat1 * g.gpi / 180) * g.gcos (lat2 * g.gpi / 180) *
      g.gsin (dlon / 2) * g.gsin (dlon / 2)
  let c := 2 * g.gatan2 (g.gsqrt a) (g.gsqrt (1 - a))
  R * c

/-- Transcription of get_distance: return the table entry for the exact
ordered key when present, otherwise the haversine distance of the two
located point records. -/
def get_distance (st : Optimizer) (from_id to_id : Int) : ℚ :=
  match st.dm from_id to_id with
  | some d => d
  | none =>
      let fp := locate st from_id
      let tp := locate st to_id
      haversine_distance st.geo fp.lat fp.lon tp.lat tp.lon

/-- The separation threshold in meters (min_distance_km * 1000). -/
def min_sep_m (st : Optimizer) : ℚ := st.min_distance_km * 1000

/-- Transcription of filter_candidates: indices of points whose land type
is not excluded and whose slope does not exceed the threshold. -/
def filter_candidates (st : Optimizer) : List Nat :=
  (List.range st.points.length).filter (fun i =>
    !(st.exclude_land_types.contains (pget st i).land_type) &&
      !(decide (st.max_slope < (pget st i).slope)))

/-- Transcription of satisfies_min_distance: the candidate is at distance
at least the threshold from every already chosen medoid (distance queried
from the candidate towards each medoid). -/
def satisfies_min_distance (st : Optimizer) (medoids : List Nat) (c : Nat) : Bool :=
  medoids.all (fun m =>
    decide (min_sep_m st ≤ get_distance st (pget st c).id (pget st m).id))

/-- Transcription of calculate_total_cost: for every point, fold the
minimum distance to a medoid starting from DBL_MAX, weight it by the
resource quantity, and sum. -/
def calculate_total_cost (st : Optimizer) (medoids : List Nat) : ℚ :=
  (st.points.map (fun p =>
    (medoids.foldl (fun acc m =>
      min acc (get_distance st p.id (pget st m).id)) DBL_MAX) *
        p.resource_quantity)).sum

/-- The inner loop of get_assignments: running minimum distance and the
index (within the medoid list) of the first medoid achieving it, with the
sentinel start (DBL_MAX, -1). -/
def assign_loop (st : Optimizer) (pid : Int) :
    List Nat → Nat → ℚ → Int → ℚ × Int
  | [], _, md, b => (md, b)
  | m :: ms, j, md, b =>
      let d := get_distance st pid (pget st m).id
      if d < md then assign_loop st pid ms (j + 1) d (Int.ofNat j)
      else assign_loop st pid ms (j + 1) md b

/-- Transcription of get_assignments: for every point the index of its
nearest medoid under the strict less-than scan. -/
def get_assignments (st : Optimizer) (medoids : List Nat) : List Int :=
  st.points.map (fun p => (assign_loop st p.id medoids 0 DBL_MAX (-1)).2)

/-- The slot-filling loop of initialize_medoids: for each remaining slot,
filter the candidates that are not already chosen and satisfy the
separation constraint; stop when that set is empty, otherwise draw one
uniformly and append it. -/
def init_loop (st : Optimizer) (cands : List Nat) :
    List Nat → Rng → Nat → List Nat × Rng
  | medoids, r, 0 => (medoids, r)
  | medoids, r, Nat.succ n =>
      let valid_next := cands.filter (fun c =>
        !(medoids.contains c) && satisfies_min_distance st medoids c)
      if valid_next = [] then (medoids, r)
      else
        let dr := draw r valid_next.length
        init_loop st cands (medoids ++ [valid_next.getD dr.1 0]) dr.2 n

/-- Transcription of initialize_medoids: first medoid drawn uniformly from
all candidates whenever there is one, then k - 1 constrained slots. -/
def initialize_medoids (st : Optimizer) (cands : List Nat) (r : Rng) :
    List Nat × Rng :=
  if cands.isEmpty then ([], r)
  else
    let dr := draw r cands.length
    init_loop st cands [cands.getD dr.1 0] dr.2 (st.k - 1)

/-- Transcription of the pairwise feasibility gate of the swap loop: every
ordered position pair (j, l) with j < l of the trial set is at distance at
least the threshold (distance queried from the earlier position towards
the later one). -/
def pairwise_ok (st : Optimizer) : List Nat → Bool
  | [] => true
  | m :: ms =>
      ms.all (fun l =>
        decide (min_sep_m st ≤ get_distance st (pget st m).id (pget st l).id)) &&
        pairwise_ok st ms

/-- The mutable state of the swap local search. -/
structure SearchState where
  medoids : List Nat
  cost : ℚ
  improved : Bool
deriving DecidableEq

/-- One trial of the swap loop body: skip candidates already in the set,
apply the feasibility gate, and commit the trial exactly when its fully
recomputed cost is strictly below the current best cost. -/
def try_candidate (st : Optimizer) (s : SearchState) (i c : Nat) : SearchState :=
  if c ∈ s.medoids then s
  else
    let nm := s.medoids.set i c
    if pairwise_ok st nm = true then
      let ncost := calculate_total_cost st nm
      if ncost < s.cost then ⟨nm, ncost, true⟩ else s
    else s

/-- The inner candidate loop at one medoid position. -/
def scan_position (st : Optimizer) (cands : List Nat) (s : SearchState)
    (i : Nat) : SearchState :=
  cands.foldl (fun s2 c => try_candidate st s2 i c) s

/-- One full round of the swap loop: every position in order, every
candidate in order (commits preserve the medoid count, so the position
range is fixed by the entry state). -/
def one_round (st : Optimizer) (cands : List Nat) (s : SearchState) : SearchState :=
  (List.range s.medoids.length).foldl (fun s2 i => scan_position st cands s2 i) s

/-- The loop body as executed: reset the improvement flag, then run a
round. -/
def roundStep (st : Optimizer) (cands : List Nat) (s : SearchState) : SearchState :=
  one_round st cands { s with improved := false }

/-- The while loop of optimize: continue while the previous round improved
and the round counter is below the cap.  Fuel-based recursion; a fuel of
51 is never exhausted before a stop condition holds. -/
def search_loop (st : Optimizer) (cands : List Nat) (s : SearchState)
    (iterations fuel : Nat) : SearchState × Nat :=
  match fuel with
  | 0 => (s, iterations)
  | Nat.succ f =>
      if s.improved = true ∧ iterations < max_iterations then
        search_loop st cands (roundStep st cands s) (iterations + 1) f
      else (s, iterations)

/-- What optimize reports: the medoid set, its cost, and the number of
rounds executed. -/
structure OptResult where
  medoids : List Nat
  cost : ℚ
  iterations : Nat
deriving DecidableEq

/-- Transcription of optimize: filter, infeasibility gate, randomized
initialization, then the capped first-improvement swap search. -/
def optimize (st : Optimizer) (r : Rng) : OptResult :=
  let cands := filter_candidates st
  if cands.length < st.k then { medoids := [], cost := DBL_MAX, iterations := 0 }
  else
    let init := initialize_medoids st cands r
    let cost0 := calculate_total_cost st init.1
    let res := search_loop st cands
      { medoids := init.1, cost := cost0, improved := true } 0 51
    { medoids := res.1.medoids, cost := res.1.cost, iterations := res.2 }

/-- Modelled from the spec, for the refinement claim about the total cost:
the distance of a point to the nearest member of a nonempty medoid set. -/
def nearest_medoid_distance (st : Optimizer) (p : Point) :
    List Nat → ℚ
  | [] => DBL_MAX
  | m :: ms =>
      ms.foldl (fun acc m2 =>
        min acc (get_distance st p.id (pget st m2).id))
        (get_distance st p.id (pget st m).id)

/-- Modelled from the spec: the sum, over every point in the full point
set, of resource weight times distance to the nearest medoid. -/
def spec_total_cost (st : Optimizer) (medoids : List Nat) : ℚ :=
  (st.points.map (fun p =>
    p.resource_quantity * nearest_medoid_distance st p medoids)).sum

/-- Modelled from the spec, for the first-improvement refinement claim:
one trial of the flattened traversal, committing a feasible strictly
improving trial immediately against the current state. -/
def firstImprovementStep (st : Optimizer) (s : SearchState)
    (t : Nat × Nat) : SearchState :=
  let trial := s.medoids.set t.1 t.2
  if t.2 ∉ s.medoids ∧ pairwise_ok st trial = true ∧
      calculate_total_cost st trial < s.cost then
    { medoids := trial, cost := calculate_total_cost st trial, improved := true }
  else s

/-- Modelled from the spec: the fixed traversal order of one round, every
position in order and within it every candidate in candidate order. -/
def trialOrder (cands : List Nat) (m : Nat) : List (Nat × Nat) :=
  (List.range m).flatMap (fun i => cands.map (fun c => (i, c)))

/-- The separation property claimed of a medoid set: every two distinct
members are at distance at least the threshold. -/
def pairSeparated (st : Optimizer) (ms : List Nat) : Prop :=
  ∀ a, a ∈ ms → ∀ b, b ∈ ms → a ≠ b →
    min_sep_m st ≤ get_distance st (pget st a).id (pget st b).id

/-- The reachability relation of one body step of the swap loop: a step
either leaves the state unchanged, or strictly decreases the cost and
sets the improvement flag. -/
def stepRel (s t : SearchState) : Prop :=
  t = s ∨ (t.cost < s.cost ∧ t.improved = true)

/-- The invariant of the assignment scan after processing the first n
positions, over the position-indexed distance function D: either nothing
beat the sentinel yet, or the best index is the first position attaining
the running minimum. -/
def assignInv (D : Nat → ℚ) (n : Nat) (md : ℚ) (b : Int) : Prop :=
  (b = -1 ∧ md = DBL_MAX ∧ ∀ jj, jj < n → DBL_MAX ≤ D jj) ∨
  (∃ bn : Nat, b = Int.ofNat bn ∧ bn < n ∧ md = D bn ∧
    (∀ jj, jj < n → md ≤ D jj) ∧ (∀ jj, jj < bn → md < D jj))

/-! Concrete instances used to instantiate the theorems below. -/

/-- Degenerate transcendental primitives (constant zero), enough to make
the haversine fallback evaluate on concrete inputs. -/
def geo0 : Geo := ⟨fun _ => 0, fun _ => 0, fun _ => 0, fun _ _ => 0, 0⟩

/-- A point at the origin with a given identifier and weight. -/
def mkPoint (i : Int) (w : ℚ) : Point := ⟨i, 0, 0, w, "", 0, 0⟩

/-- An asymmetric distance table: 2000 m from id 1 to id 2, 0 m in every
other direction (in particular 0 m from id 2 back to id 1). -/
def c1dm : Int → Int → Option ℚ :=
  fun a b => if a = 1 ∧ b = 2 then some 2000 else some 0

/-- Two points, k = 2, minimum separation 1 km, over the asymmetric
table. -/
def c1st : Optimizer :=
  { points := [mkPoint 1 1, mkPoint 2 1]
    dm := c1dm
    k := 2
    min_distance_km := 1
    exclude_land_types := []
    max_slope := 30
    geo := geo0 }

/-- The draw stream that makes the initializer pick index 1 (the point
with id 2) first. -/
def c1rng : Rng := [1]

/-- Two points over a constant (hence symmetric) 2000 m table, k = 2,
minimum separation 1 km. -/
def symSt : Optimizer :=
  { points := [mkPoint 1 1, mkPoint 2 1]
    dm := fun _ _ => some 2000
    k := 2
    min_distance_km := 1
    exclude_land_types := []
    max_slope := 30
    geo := geo0 }

/-- No points at all but k = 1: the infeasibility gate fires. -/
def c2st : Optimizer :=
  { points := []
    dm := fun _ _ => none
    k := 1
    min_distance_km := 2
    exclude_land_types := []
    max_slope := 30
    geo := geo0 }

/-- A sparse table holding only the ordered key (1, 2). -/
def c7st : Optimizer :=
  { points := [mkPoint 1 1, mkPoint 2 1]
    dm := fun a b => if a = 1 ∧ b = 2 then some 5 else none
    k := 1
    min_distance_km := 0
    exclude_land_types := []
    max_slope := 30
    geo := geo0 }

/-- One candidate point but k = 0. -/
def c10st : Optimizer :=
  { points := [mkPoint 1 1]
    dm := fun _ _ => some 0
    k := 0
    min_distance_km := 0
    exclude_land_types := []
    max_slope := 30
    geo := geo0 }

/-! Theorems. -/

/-- The DBL_MAX literal is the value of the C++ sentinel. -/
theorem DBL_MAX_eq : DBL_MAX = 2 ^ 1024 - 2 ^ 971 := by
  norm_num [DBL_MAX]

/-- C2: if the candidate set after filtering has fewer than k elements,
optimize returns the sentinel cost with an empty medoid set and zero
local-search rounds (local search is never entered). -/
theorem c2_infeasible_sentinel (st : Optimizer) (r : Rng)
    (h : (filter_candidates st).length < st.k) :
    optimize st r = { medoids := [], cost := DBL_MAX, iterations := 0 } := by
  simp only [optimize, if_pos h]

/-- C2 witness: a configuration with no points and k = 1. -/
theorem c2_infeasible_sentinel_witness :
    (filter_candidates c2st).length < c2st.k ∧
      optimize c2st [] = { medoids := [], cost := DBL_MAX, iterations := 0 } :=
  ⟨by decide, c2_infeasible_sentinel c2st [] (by decide)⟩

/-- C7: the distance oracle returns the table entry for the exact ordered
key when present, and otherwise the haversine distance of the two located
point records; it is total (no error path) and never consults the
reversed key. -/
theorem c7_distance_lookup (st : Optimizer) (a b : Int) :
    (∀ d : ℚ, st.dm a b = some d → get_distance st a b = d) ∧
    (st.dm a b = none →
      get_distance st a b =
        haversine_distance st.geo (locate st a).lat (locate st a).lon
          (locate st b).lat (locate st b).lon) := by
  constructor
  · intro d hd
    simp [get_distance, hd]
  · intro hn
    simp [get_distance, hn]

/-- C7 witness: a sparse table holding only the key (1, 2); the oracle
returns the entry for (1, 2) and falls back to haversine for (2, 1). -/
theorem c7_distance_lookup_witness :
    get_distance c7st 1 2 = 5 ∧
      get_distance c7st 2 1 =
        haversine_distance c7st.geo (locate c7st 2).lat (locate c7st 2).lon
          (locate c7st 1).lat (locate c7st 1).lon :=
  ⟨(c7_distance_lookup c7st 1 2).1 5 (by decide),
    (c7_distance_lookup c7st 2 1).2 (by decide)⟩

/-- C9: the optimization is a pure function of the configuration and the
draw stream: identical inputs and identical streams give identical medoid
set, cost and round count. -/
theorem c9_deterministic (st1 st2 : Optimizer) (r1 r2 : Rng)
    (hst : st1 = st2) (hr : r1 = r2) :
    (optimize st1 r1).medoids = (optimize st2 r2).medoids ∧
      (optimize st1 r1).cost = (optimize st2 r2).cost ∧
      (optimize st1 r1).iterations = (optimize st2 r2).iterations := by
  subst hst
  subst hr
  exact ⟨rfl, rfl, rfl⟩

/-- C9 witness: two runs on the same concrete configuration and stream. -/
theorem c9_deterministic_witness :
    (optimize symSt [0]).medoids = (optimize symSt [0]).medoids ∧
      (optimize symSt [0]).cost = (optimize symSt [0]).cost ∧
      (optimize symSt [0]).iterations = (optimize symSt [0]).iterations :=
  c9_deterministic symSt symSt [0] [0] rfl rfl

theorem stepRel_refl (s : SearchState) : stepRel s s := Or.inl rfl

theorem stepRel_trans {a b c : SearchState} (h1 : stepRel a b)
    (h2 : stepRel b c) : stepRel a c := by
  rcases h2 with h2 | ⟨h2c, h2i⟩
  · rw [h2]
    exact h1
  · rcases h1 with h1 | ⟨h1c, _⟩
    · rw [h1] at h2c
      exact Or.inr ⟨h2c, h2i⟩
    · exact Or.inr ⟨lt_trans h2c h1c, h2i⟩

theorem try_candidate_stepRel (st : Optimizer) (s : SearchState) (i c : Nat) :
    stepRel s (try_candidate st s i c) := by
  rw [try_candidate]
  by_cases h1 : c ∈ s.medoids
  · simp only [if_pos h1]
    exact stepRel_refl s
  · simp only [if_neg h1]
    by_cases h2 : pairwise_ok st (s.medoids.set i c) = true
    · simp only [if_pos h2]
      by_cases h3 : calculate_total_cost st (s.medoids.set i c) < s.cost
      · simp only [if_pos h3]
        exact Or.inr ⟨h3, rfl⟩
      · simp only [if_neg h3]
        exact stepRel_refl s
    · simp only [if_neg h2]
      exact stepRel_refl s

theorem foldl_stepRel {α : Type} (f : SearchState → α → SearchState)
    (hf : ∀ s x, stepRel s (f s x)) :
    ∀ (l : List α) (s : SearchState), stepRel s (l.foldl f s) := by
  intro l
  induction l with
  | nil => intro s; exact stepRel_refl s
  | cons x xs ih =>
      intro s
      exact stepRel_trans (hf s x) (ih (f s x))

theorem scan_position_stepRel (st : Optimizer) (cands : List Nat)
    (s : SearchState) (i : Nat) : stepRel s (scan_position st cands s i) :=
  foldl_stepRel _ (fun s2 c => try_candidate_stepRel st s2 i c) cands s

theorem one_round_stepRel (st : Optimizer) (cands : List Nat)
    (s : SearchState) : stepRel s (one_round st cands s) :=
  foldl_stepRel _ (fun s2 i => scan_position_stepRel st cands s2 i)
    (List.range s.medoids.length) s

theorem roundStep_cost_le (st : Optimizer) (cands : List Nat)
    (s : SearchState) : (roundStep st cands s).cost ≤ s.cost := by
  rcases one_round_stepRel st cands { s with improved := false } with h | ⟨hc, _⟩
  · rw [roundStep, h]
  · rw [roundStep]
    exact le_of_lt hc

theorem roundStep_improved_iff (st : Optimizer) (cands : List Nat)
    (s : SearchState) :
    (roundStep st cands s).improved = true ↔
      (roundStep st cands s).cost < s.cost := by
  constructor
  · intro hi
    rcases one_round_stepRel st cands { s with improved := false } with h | ⟨hc, _⟩
    · rw [roundStep, h] at hi
      simp at hi
    · rw [roundStep]
      exact hc
  · intro hc
    rcases one_round_stepRel st cands { s with improved := false } with h | ⟨_, hi⟩
    · rw [roundStep, h] at hc
      simp at hc
    · rw [roundStep]
      exact hi

theorem roundStep_improved_false_iff (st : Optimizer) (cands : List Nat)
    (s : SearchState) :
    (roundStep st cands s).improved = false ↔
      (roundStep st cands s).cost = s.cost := by
  have hle := roundStep_cost_le st cands s
  have hiff := roundStep_improved_iff st cands s
  constructor
  · intro hi
    have : ¬ (roundStep st cands s).cost < s.cost := by
      intro hlt
      rw [hiff.mpr hlt] at hi
      simp at hi
    exact le_antisymm hle (not_lt.mp this)
  · intro he
    cases hb : (roundStep st cands s).improved with
    | false => rfl
    | true =>
        have := hiff.mp hb
        rw [he] at this
        exact absurd this (lt_irrefl _)

theorem search_loop_cost_le (st : Optimizer) (cands : List Nat) :
    ∀ (fuel : Nat) (s : SearchState) (it : Nat),
      ((search_loop st cands s it fuel).1).cost ≤ s.cost := by
  intro fuel
  induction fuel with
  | zero => intro s it; exact le_rfl
  | succ f ih =>
      intro s it
      rw [search_loop]
      by_cases h : s.improved = true ∧ it < max_iterations
      · simp only [if_pos h]
        exact le_trans (ih (roundStep st cands s) (it + 1))
          (roundStep_cost_le st cands s)
      · simp only [if_neg h]
        exact le_rfl

/-- C3: within one executed round (reset flag, then scan), the cost never
increases; the round reports an improvement exactly when its cost
strictly decreased, and reports none exactly when the cost is unchanged;
every individual trial either leaves the state unchanged or commits with
a strictly smaller cost; consequently across the whole loop the cost is
non-increasing. -/
theorem c3_monotonic_cost (st : Optimizer) (cands : List Nat)
    (s : SearchState) :
    (roundStep st cands s).cost ≤ s.cost ∧
      ((roundStep st cands s).improved = true ↔
        (roundStep st cands s).cost < s.cost) ∧
      ((roundStep st cands s).improved = false ↔
        (roundStep st cands s).cost = s.cost) ∧
      (∀ (s2 : SearchState) (i c : Nat), try_candidate st s2 i c = s2 ∨
        ((try_candidate st s2 i c).cost < s2.cost ∧
          (try_candidate st s2 i c).improved = true)) ∧
      (∀ (it fuel : Nat), ((search_loop st cands s it fuel).1).cost ≤ s.cost) :=
  ⟨roundStep_cost_le st cands s, roundStep_improved_iff st cands s,
    roundStep_improved_false_iff st cands s,
    fun s2 i c => try_candidate_stepRel st s2 i c,
    fun it fuel => search_loop_cost_le st cands fuel s it⟩

theorem try_eq_firstImprovementStep (st : Optimizer) (s : SearchState)
    (i c : Nat) : try_candidate st s i c = firstImprovementStep st s (i, c) := by
  rw [try_candidate, firstImprovementStep]
  by_cases h1 : c ∈ s.medoids
  · simp [h1]
  · by_cases h2 : pairwise_ok st (s.medoids.set i c) = true
    · by_cases h3 : calculate_total_cost st (s.medoids.set i c) < s.cost
      · simp [h1, h2, h3]
      · simp [h1, h2, h3]
    · simp [h1, h2]

theorem scan_position_eq_foldl (st : Optimizer) (cands : List Nat)
    (s : SearchState) (i : Nat) :
    scan_position st cands s i =
      (cands.map (fun c => (i, c))).foldl (firstImprovementStep st) s := by
  rw [scan_position, List.foldl_map]
  have : (fun s2 c => try_candidate st s2 i c) =
      (fun (s2 : SearchState) (c : Nat) => firstImprovementStep st s2 (i, c)) := by
    funext s2 c
    exact try_eq_firstImprovementStep st s2 i c
  rw [this]

theorem foldl_scan_eq_flat (st : Optimizer) (cands : List Nat) :
    ∀ (is : List Nat) (s : SearchState),
      is.foldl (fun s2 i => scan_position st cands s2 i) s =
        (is.flatMap (fun i => cands.map (fun c => (i, c)))).foldl
          (firstImprovementStep st) s := by
  intro is
  induction is with
  | nil => intro s; rfl
  | cons i is ih =>
      intro s
      rw [List.foldl_cons, List.flatMap_cons, List.foldl_append, ih,
        scan_position_eq_foldl]

/-- C5: one round of local search is exactly the first-improvement
traversal in the fixed flattened order (positions in medoid order, then
candidates in candidate order), where each trial is evaluated against the
current, possibly already improved, state and a feasible trial with a
strictly smaller recomputed cost is committed immediately. -/
theorem c5_first_improvement (st : Optimizer) (cands : List Nat)
    (s : SearchState) :
    one_round st cands s =
      (trialOrder cands s.medoids.length).foldl (firstImprovementStep st) s := by
  rw [one_round, trialOrder, foldl_scan_eq_flat]

theorem search_loop_spec (st : Optimizer) (cands : List Nat) :
    ∀ (fuel : Nat) (s : SearchState) (it : Nat),
      it ≤ max_iterations → max_iterations < it + fuel →
      it ≤ (search_loop st cands s it fuel).2 ∧
      (search_loop st cands s it fuel).2 ≤ max_iterations ∧
      (search_loop st cands s it fuel).1 =
        (fun t => roundStep st cands t)^[(search_loop st cands s it fuel).2 - it] s ∧
      ((search_loop st cands s it fuel).1.improved = false ∨
        (search_loop st cands s it fuel).2 = max_iterations) ∧
      (∀ m, m < (search_loop st cands s it fuel).2 - it →
        ((fun t => roundStep st cands t)^[m] s).improved = true) := by
  intro fuel
  induction fuel with
  | zero =>
      intro s it h1 h2
      omega
  | succ f ih =>
      intro s it h1 h2
      rw [search_loop]
      by_cases h : s.improved = true ∧ it < max_iterations
      · simp only [if_pos h]
        obtain ⟨ha, hb, hc, hd, he⟩ :=
          ih (roundStep st cands s) (it + 1) (by omega) (by omega)
        refine ⟨by omega, hb, ?_, hd, ?_⟩
        · have hn : (search_loop st cands (roundStep st cands s) (it + 1) f).2 - it =
              ((search_loop st cands (roundStep st cands s) (it + 1) f).2 - (it + 1)) + 1 := by
            omega
          rw [hn, Function.iterate_succ_apply]
          exact hc
        · intro m hm
          cases m with
          | zero => exact h.1
          | succ m2 =>
              rw [Function.iterate_succ_apply]
              exact he m2 (by omega)
      · simp only [if_neg h]
        refine ⟨le_rfl, h1, by simp, ?_, by omega⟩
        rcases Decidable.not_and_iff_or_not.mp h with hni | hni
        · exact Or.inl (by simpa using hni)
        · exact Or.inr (by omega)

/-- C6: with the fuel optimize supplies, local search always terminates:
the round count never exceeds the fixed cap of 50, the loop stops either
with a round that recorded no improvement or exactly at the cap, the
final state is the round count fold of the round step (so the reported
count is the number of rounds executed), and every round before the last
executed one recorded an improvement. -/
theorem c6_termination (st : Optimizer) (cands : List Nat) (s : SearchState) :
    max_iterations = 50 ∧
      (search_loop st cands s 0 51).2 ≤ max_iterations ∧
      ((search_loop st cands s 0 51).1.improved = false ∨
        (search_loop st cands s 0 51).2 = max_iterations) ∧
      (search_loop st cands s 0 51).1 =
        (fun t => roundStep st cands t)^[(search_loop st cands s 0 51).2] s ∧
      ((List.range (search_loop st cands s 0 51).2).all
        (fun m => ((fun t => roundStep st cands t)^[m] s).improved)) = true := by
  obtain ⟨ha, hb, hc, hd, he⟩ :=
    search_loop_spec st cands 51 s 0 (Nat.zero_le _) (by decide)
  rw [Nat.sub_zero] at hc he
  refine ⟨rfl, hb, hd, hc, ?_⟩
  rw [List.all_eq_true]
  intro m hm
  exact he m (List.mem_range.mp hm)

theorem fold_min_le_init (l : List ℚ) : ∀ a : ℚ, l.foldl min a ≤ a := by
  induction l with
  | nil => intro a; exact le_rfl
  | cons x xs ih =>
      intro a
      rw [List.foldl_cons]
      exact le_trans (ih (min a x)) (min_le_left a x)

theorem fold_min_le_mem (l : List ℚ) :
    ∀ (a x : ℚ), x ∈ l → l.foldl min a ≤ x := by
  induction l with
  | nil => intro a x hx; exact absurd hx (List.not_mem_nil x)
  | cons y ys ih =>
      intro a x hx
      rw [List.foldl_cons]
      rcases List.mem_cons.mp hx with h | h
      · rw [h]
        exact le_trans (fold_min_le_init ys (min a y)) (min_le_right a y)
      · exact ih (min a y) x h

theorem fold_min_eq_or_mem (l : List ℚ) :
    ∀ a : ℚ, l.foldl min a = a ∨ l.foldl min a ∈ l := by
  induction l with
  | nil => intro a; exact Or.inl rfl
  | cons x xs ih =>
      intro a
      rw [List.foldl_cons]
      rcases ih (min a x) with h | h
      · rcases min_choice a x with hm | hm
        · exact Or.inl (h.trans hm)
        · exact Or.inr (List.mem_cons.mpr (Or.inl (h.trans hm)))
      · exact Or.inr (List.mem_cons.mpr (Or.inr h))

theorem nearest_eq_fold_map (st : Optimizer) (p : Point) (m : Nat)
    (ms : List Nat) :
    nearest_medoid_distance st p (m :: ms) =
      (ms.map (fun x => get_distance st p.id (pget st x).id)).foldl min
        (get_distance st p.id (pget st m).id) := by
  rw [List.foldl_map]
  simp [nearest_medoid_distance]

theorem point_min_eq (st : Optimizer) (p : Point) (m : Nat) (ms : List Nat)
    (h : get_distance st p.id (pget st m).id ≤ DBL_MAX) :
    (m :: ms).foldl
        (fun acc x => min acc (get_distance st p.id (pget st x).id)) DBL_MAX =
      nearest_medoid_distance st p (m :: ms) := by
  rw [List.foldl_cons, min_eq_right h]
  simp [nearest_medoid_distance]

/-- C4: whenever the medoid set is nonempty and distances are below the
double sentinel, the computed total cost is the sum over every point in
the full point set of its resource weight times its distance to the
nearest member of the medoid set; the nearest distance is a lower bound
on the distance to every member and is attained by some member. -/
theorem c4_total_cost_spec (st : Optimizer) (medoids : List Nat)
    (hne : medoids ≠ [])
    (hb : ∀ p ∈ st.points, ∀ m ∈ medoids,
      get_distance st p.id (pget st m).id ≤ DBL_MAX) :
    calculate_total_cost st medoids = spec_total_cost st medoids ∧
      (∀ p, ∀ m ∈ medoids,
        nearest_medoid_distance st p medoids ≤
          get_distance st p.id (pget st m).id) ∧
      (∀ p : Point, ∃ m ∈ medoids,
        nearest_medoid_distance st p medoids =
          get_distance st p.id (pget st m).id) := by
  obtain ⟨m, ms, rfl⟩ := List.exists_cons_of_ne_nil hne
  refine ⟨?_, ?_, ?_⟩
  · rw [calculate_total_cost, spec_total_cost]
    congr 1
    apply List.map_congr_left
    intro p hp
    rw [point_min_eq st p m ms (hb p hp m (List.mem_cons_self m ms))]
    exact mul_comm _ _
  · intro p m2 hm2
    rw [nearest_eq_fold_map]
    rcases List.mem_cons.mp hm2 with h | h
    · rw [h]
      exact fold_min_le_init _ _
    · exact fold_min_le_mem _ _ _ (List.mem_map_of_mem _ h)
  · intro p
    rw [nearest_eq_fold_map]
    rcases fold_min_eq_or_mem
        (ms.map (fun x => get_distance st p.id (pget st x).id))
        (get_distance st p.id (pget st m).id) with h | h
    · exact ⟨m, List.mem_cons_self m ms, h⟩
    · obtain ⟨m2, hm2, he⟩ := List.mem_map.mp h
      exact ⟨m2, List.mem_cons.mpr (Or.inr hm2), he.symm⟩

/-- C4 witness: the two point configuration with the constant 2000 m
table and the single medoid at index 0. -/
theorem c4_total_cost_spec_witness :
    calculate_total_cost symSt [0] = spec_total_cost symSt [0] ∧
      (∀ p, ∀ m ∈ [0],
        nearest_medoid_distance symSt p [0] ≤
          get_distance symSt p.id (pget symSt m).id) ∧
      (∀ p : Point, ∃ m ∈ [0],
        nearest_medoid_distance symSt p [0] =
          get_distance symSt p.id (pget symSt m).id) :=
  c4_total_cost_spec symSt [0] (by decide) (by decide)

theorem try_candidate_medoids_length (st : Optimizer) (s : SearchState)
    (i c : Nat) :
    (try_candidate st s i c).medoids.length = s.medoids.length := by
  rw [try_candidate]
  by_cases h1 : c ∈ s.medoids
  · simp [h1]
  · simp only [if_neg h1]
    by_cases h2 : pairwise_ok st (s.medoids.set i c) = true
    · simp only [if_pos h2]
      by_cases h3 : calculate_total_cost st (s.medoids.set i c) < s.cost
      · simp [h3, List.length_set]
      · simp [h3]
    · simp [h2]

theorem foldl_medoids_length {α : Type} (f : SearchState → α → SearchState)
    (hf : ∀ s x, (f s x).medoids.length = s.medoids.length) :
    ∀ (l : List α) (s : SearchState),
      (l.foldl f s).medoids.length = s.medoids.length := by
  intro l
  induction l with
  | nil => intro s; rfl
  | cons x xs ih =>
      intro s
      rw [List.foldl_cons, ih (f s x), hf s x]

theorem roundStep_medoids_length (st : Optimizer) (cands : List Nat)
    (s : SearchState) :
    (roundStep st cands s).medoids.length = s.medoids.length := by
  rw [roundStep, one_round]
  exact foldl_medoids_length _
    (fun s2 i => foldl_medoids_length _
      (fun s3 c => try_candidate_medoids_length st s3 i c) cands s2) _ _

theorem search_loop_medoids_length (st : Optimizer) (cands : List Nat) :
    ∀ (fuel : Nat) (s : SearchState) (it : Nat),
      (search_loop st cands s it fuel).1.medoids.length = s.medoids.length := by
  intro fuel
  induction fuel with
  | zero => intro s it; rfl
  | succ f ih =>
      intro s it
      rw [search_loop]
      by_cases h : s.improved = true ∧ it < max_iterations
      · simp only [if_pos h]
        rw [ih (roundStep st cands s) (it + 1), roundStep_medoids_length]
      · simp only [if_neg h]

theorem init_loop_length_le (st : Optimizer) (cands : List Nat) :
    ∀ (n : Nat) (medoids : List Nat) (r : Rng),
      medoids.length ≤ (init_loop st cands medoids r n).1.length := by
  intro n
  induction n with
  | zero => intro medoids r; exact le_rfl
  | succ n ih =>
      intro medoids r
      rw [init_loop]
      by_cases h : cands.filter (fun c =>
          !(medoids.contains c) && satisfies_min_distance st medoids c) = []
      · simp only [if_pos h]
        exact le_rfl
      · simp only [if_neg h]
        refine le_trans ?_ (ih _ _)
        simp

theorem initialize_medoids_ne_nil (st : Optimizer) (cands : List Nat)
    (r : Rng) (hc : cands ≠ []) : (initialize_medoids st cands r).1 ≠ [] := by
  rw [initialize_medoids]
  have hie : ¬ (cands.isEmpty = true) := by
    simpa [List.isEmpty_iff] using hc
  simp only [if_neg hie]
  have h1 := init_loop_length_le st cands (st.k - 1)
    [cands.getD (draw r cands.length).1 0] (draw r cands.length).2
  intro hnil
  rw [hnil] at h1
  simp at h1

theorem initialize_medoids_k0_length (st : Optimizer) (cands : List Nat)
    (r : Rng) (hc : cands ≠ []) (hk : st.k = 0) :
    (initialize_medoids st cands r).1.length = 1 := by
  rw [initialize_medoids]
  have hie : ¬ (cands.isEmpty = true) := by
    simpa [List.isEmpty_iff] using hc
  simp only [if_neg hie, hk]
  rw [init_loop]
  rfl

/-- C10: the initializer always chooses a first medoid when the candidate
set is nonempty, regardless of k; in particular with k = 0 (where the
infeasibility gate cannot fire) optimize returns a medoid set of size 1,
which exceeds k. -/
theorem c10_k_zero_medoid :
    (∀ (st : Optimizer) (cands : List Nat) (r : Rng), cands ≠ [] →
      (initialize_medoids st cands r).1 ≠ []) ∧
    (∀ (st : Optimizer) (r : Rng), st.k = 0 → filter_candidates st ≠ [] →
      (optimize st r).medoids.length = 1) := by
  constructor
  · exact initialize_medoids_ne_nil
  · intro st r hk hf
    have hnot : ¬ (filter_candidates st).length < st.k := by
      rw [hk]
      exact Nat.not_lt_zero _
    rw [optimize]
    simp only [if_neg hnot]
    rw [search_loop_medoids_length]
    exact initialize_medoids_k0_length st (filter_candidates st) r hf hk

/-- C10 witness: one candidate point with k = 0 yields a singleton medoid
set. -/
theorem c10_k_zero_medoid_witness :
    (initialize_medoids c10st (filter_candidates c10st) []).1 ≠ [] ∧
      (optimize c10st []).medoids.length = 1 :=
  ⟨c10_k_zero_medoid.1 c10st (filter_candidates c10st) [] (by decide),
    c10_k_zero_medoid.2 c10st [] (by decide) (by decide)⟩

theorem assign_loop_inv (st : Optimizer) (pid : Int) (D : Nat → ℚ) :
    ∀ (ms : List Nat) (j0 : Nat) (md : ℚ) (b : Int),
      (∀ t, t < ms.length →
        D (j0 + t) = get_distance st pid (pget st (ms.getD t 0)).id) →
      assignInv D j0 md b →
      assignInv D (j0 + ms.length) (assign_loop st pid ms j0 md b).1
        (assign_loop st pid ms j0 md b).2 := by
  intro ms
  induction ms with
  | nil =>
      intro j0 md b hD hInv
      simpa using hInv
  | cons m ms ih =>
      intro j0 md b hD hInv
      have hD0 : D j0 = get_distance st pid (pget st m).id := by
        simpa using hD 0 (by simp)
      have hD2 : ∀ t, t < ms.length →
          D (j0 + 1 + t) = get_distance st pid (pget st (ms.getD t 0)).id := by
        intro t ht
        have harith : j0 + 1 + t = j0 + (t + 1) := by omega
        rw [harith]
        simpa using hD (t + 1) (by simpa using Nat.succ_lt_succ ht)
      have harith2 : j0 + 1 + ms.length = j0 + (m :: ms).length := by
        simp
        omega
      simp only [assign_loop]
      by_cases hlt : get_distance st pid (pget st m).id < md
      · rw [if_pos hlt]
        have hInv2 : assignInv D (j0 + 1)
            (get_distance st pid (pget st m).id) (Int.ofNat j0) := by
          refine Or.inr ⟨j0, rfl, Nat.lt_succ_self j0, hD0.symm, ?_, ?_⟩
          · intro jj hjj
            rcases Nat.lt_succ_iff_lt_or_eq.mp hjj with hj | hj
            · rcases hInv with ⟨_, hmd, hall⟩ | ⟨bn, _, _, _, hall, _⟩
              · exact le_of_lt (lt_of_lt_of_le (hmd ▸ hlt) (hall jj hj))
              · exact le_of_lt (lt_of_lt_of_le hlt (hall jj hj))
            · rw [hj, hD0]
          · intro jj hjj
            rcases hInv with ⟨_, hmd, hall⟩ | ⟨bn, _, _, _, hall, _⟩
            · exact lt_of_lt_of_le (hmd ▸ hlt) (hall jj hjj)
            · exact lt_of_lt_of_le hlt (hall jj hjj)
        have hres := ih (j0 + 1) (get_distance st pid (pget st m).id)
          (Int.ofNat j0) hD2 hInv2
        rw [harith2] at hres
        exact hres
      · rw [if_neg hlt]
        have hInv2 : assignInv D (j0 + 1) md b := by
          rcases hInv with ⟨hb, hmd, hall⟩ | ⟨bn, hb, hbn, hmd, hall, hstrict⟩
          · refine Or.inl ⟨hb, hmd, ?_⟩
            intro jj hjj
            rcases Nat.lt_succ_iff_lt_or_eq.mp hjj with hj | hj
            · exact hall jj hj
            · rw [hj, hD0]
              exact hmd ▸ not_lt.mp hlt
          · refine Or.inr ⟨bn, hb, Nat.lt_succ_of_lt hbn, hmd, ?_, hstrict⟩
            intro jj hjj
            rcases Nat.lt_succ_iff_lt_or_eq.mp hjj with hj | hj
            · exact hall jj hj
            · rw [hj, hD0]
              exact not_lt.mp hlt
        have hres := ih (j0 + 1) md b hD2 hInv2
        rw [harith2] at hres
        exact hres

/-- C8: the assignment scan over the medoid list uses a strict less-than
update starting from the sentinel, so (whenever some medoid is below the
sentinel distance) the chosen index is a valid position whose distance is
minimal over the whole set and every earlier position is strictly
farther: the point is assigned to the first medoid achieving the minimum
and no medoid is strictly closer. -/
theorem c8_assignment_nearest (st : Optimizer) (medoids : List Nat)
    (pid : Int)
    (hex : ∃ m ∈ medoids, get_distance st pid (pget st m).id < DBL_MAX) :
    get_assignments st medoids =
      st.points.map (fun p => (assign_loop st p.id medoids 0 DBL_MAX (-1)).2) ∧
    ∃ bn : Nat,
      (assign_loop st pid medoids 0 DBL_MAX (-1)).2 = Int.ofNat bn ∧
      bn < medoids.length ∧
      (∀ j, j < medoids.length →
        get_distance st pid (pget st (medoids.getD bn 0)).id ≤
          get_distance st pid (pget st (medoids.getD j 0)).id) ∧
      (∀ j, j < bn →
        get_distance st pid (pget st (medoids.getD bn 0)).id <
          get_distance st pid (pget st (medoids.getD j 0)).id) := by
  refine ⟨rfl, ?_⟩
  set D : Nat → ℚ := fun j => get_distance st pid (pget st (medoids.getD j 0)).id
    with hDdef
  have hlink : ∀ t, t < medoids.length →
      D (0 + t) = get_distance st pid (pget st (medoids.getD t 0)).id := by
    intro t ht
    rw [Nat.zero_add]
  have h0 : assignInv D 0 DBL_MAX (-1) :=
    Or.inl ⟨rfl, rfl, fun jj h => absurd h (Nat.not_lt_zero jj)⟩
  have hres := assign_loop_inv st pid D medoids 0 DBL_MAX (-1) hlink h0
  rw [Nat.zero_add] at hres
  rcases hres with ⟨_, _, hall⟩ | ⟨bn, hb, hbn, hmd, hall, hstrict⟩
  · obtain ⟨m, hm, hmlt⟩ := hex
    obtain ⟨t, ht, hts⟩ := List.mem_iff_getElem.mp hm
    have hge := hall t ht
    rw [hDdef] at hge
    simp only at hge
    rw [List.getD_eq_getElem _ _ ht, hts] at hge
    exact absurd hmlt (not_lt.mpr hge)
  · refine ⟨bn, hb, hbn, ?_, ?_⟩
    · intro j hj
      have h1 : D bn ≤ D j := by
        rw [← hmd]
        exact hall j hj
      exact h1
    · intro j hj
      have h1 : D bn < D j := by
        rw [← hmd]
        exact hstrict j hj
      exact h1

/-- C8 witness: the point with id 1 against the medoid list holding both
point indices of the two point configuration. -/
theorem c8_assignment_nearest_witness :
    get_assignments c1st [0, 1] =
      c1st.points.map (fun p => (assign_loop c1st p.id [0, 1] 0 DBL_MAX (-1)).2) ∧
    ∃ bn : Nat,
      (assign_loop c1st 1 [0, 1] 0 DBL_MAX (-1)).2 = Int.ofNat bn ∧
      bn < ([0, 1] : List Nat).length ∧
      (∀ j, j < ([0, 1] : List Nat).length →
        get_distance c1st 1 (pget c1st (([0, 1] : List Nat).getD bn 0)).id ≤
          get_distance c1st 1 (pget c1st (([0, 1] : List Nat).getD j 0)).id) ∧
      (∀ j, j < bn →
        get_distance c1st 1 (pget c1st (([0, 1] : List Nat).getD bn 0)).id <
          get_distance c1st 1 (pget c1st (([0, 1] : List Nat).getD j 0)).id) :=
  c8_assignment_nearest c1st [0, 1] 1 (by decide)

theorem satisfies_min_distance_spec (st : Optimizer) (medoids : List Nat)
    (c : Nat) :
    satisfies_min_distance st medoids c = true ↔
      ∀ m ∈ medoids,
        min_sep_m st ≤ get_distance st (pget st c).id (pget st m).id := by
  simp [satisfies_min_distance, List.all_eq_true]

theorem pairSeparated_nil (st : Optimizer) : pairSeparated st [] := by
  intro a ha
  simp at ha

theorem pairSeparated_singleton (st : Optimizer) (c : Nat) :
    pairSeparated st [c] := by
  intro a ha b hb hab
  rw [List.mem_singleton] at ha hb
  rw [ha, hb] at hab
  exact absurd rfl hab

theorem pairwise_ok_pairSep (st : Optimizer)
    (hsym : ∀ a b : Int, get_distance st a b = get_distance st b a) :
    ∀ l : List Nat, pairwise_ok st l = true → pairSeparated st l := by
  intro l
  induction l with
  | nil => intro _; exact pairSeparated_nil st
  | cons m ms ih =>
      intro hok a ha b hb hab
      rw [pairwise_ok, Bool.and_eq_true] at hok
      obtain ⟨hhead, htail⟩ := hok
      rw [List.all_eq_true] at hhead
      rcases List.mem_cons.mp ha with ha2 | ha2 <;>
        rcases List.mem_cons.mp hb with hb2 | hb2
      · rw [ha2, hb2] at hab
        exact absurd rfl hab
      · rw [ha2]
        simpa using hhead b hb2
      · rw [hb2]
        rw [hsym]
        simpa using hhead a ha2
      · exact ih htail a ha2 b hb2 hab

theorem draw_lt (r : Rng) (n : Nat) (h : 0 < n) : (draw r n).1 < n := by
  cases r with
  | nil => exact h
  | cons x xs => exact Nat.mod_lt x h

theorem getD_mem_of_lt (l : List Nat) (j : Nat) (h : j < l.length) :
    l.getD j 0 ∈ l := by
  rw [List.getD_eq_getElem _ _ h]
  exact List.getElem_mem h

theorem init_loop_pairSep (st : Optimizer) (cands : List Nat)
    (hsym : ∀ a b : Int, get_distance st a b = get_distance st b a) :
    ∀ (n : Nat) (medoids : List Nat) (r : Rng),
      pairSeparated st medoids →
      pairSeparated st (init_loop st cands medoids r n).1 := by
  intro n
  induction n with
  | zero => intro medoids r hP; exact hP
  | succ n ih =>
      intro medoids r hP
      rw [init_loop]
      by_cases h : cands.filter (fun c =>
          !(medoids.contains c) && satisfies_min_distance st medoids c) = []
      · simp only [if_pos h]
        exact hP
      · simp only [if_neg h]
        apply ih
        have hlen : 0 < (cands.filter (fun c =>
            !(medoids.contains c) && satisfies_min_distance st medoids c)).length :=
          List.length_pos.mpr h
        set vn := cands.filter (fun c =>
          !(medoids.contains c) && satisfies_min_distance st medoids c) with hvn
        set e := vn.getD (draw r vn.length).1 0 with he
        have hemem : e ∈ vn := getD_mem_of_lt vn _ (draw_lt r vn.length hlen)
        have hprop := List.of_mem_filter hemem
        rw [Bool.and_eq_true] at hprop
        have hsat := (satisfies_min_distance_spec st medoids e).mp hprop.2
        intro a ha b hb hab
        rcases List.mem_append.mp ha with ha2 | ha2 <;>
          rcases List.mem_append.mp hb with hb2 | hb2
        · exact hP a ha2 b hb2 hab
        · rw [List.mem_singleton] at hb2
          rw [hb2, hsym]
          exact hsat a ha2
        · rw [List.mem_singleton] at ha2
          rw [ha2]
          exact hsat b hb2
        · rw [List.mem_singleton] at ha2 hb2
          rw [ha2, hb2] at hab
          exact absurd rfl hab

theorem initialize_medoids_pairSep (st : Optimizer) (cands : List Nat)
    (r : Rng)
    (hsym : ∀ a b : Int, get_distance st a b = get_distance st b a) :
    pairSeparated st (initialize_medoids st cands r).1 := by
  rw [initialize_medoids]
  by_cases h : cands.isEmpty = true
  · simp only [if_pos h]
    exact pairSeparated_nil st
  · simp only [if_neg h]
    exact init_loop_pairSep st cands hsym _ _ _
      (pairSeparated_singleton st _)

theorem try_candidate_pairSep (st : Optimizer) (s : SearchState) (i c : Nat)
    (hsym : ∀ a b : Int, get_distance st a b = get_distance st b a)
    (hP : pairSeparated st s.medoids) :
    pairSeparated st (try_candidate st s i c).medoids := by
  rw [try_candidate]
  by_cases h1 : c ∈ s.medoids
  · simp only [if_pos h1]
    exact hP
  · simp only [if_neg h1]
    by_cases h2 : pairwise_ok st (s.medoids.set i c) = true
    · simp only [if_pos h2]
      by_cases h3 : calculate_total_cost st (s.medoids.set i c) < s.cost
      · simp only [if_pos h3]
        exact pairwise_ok_pairSep st hsym _ h2
      · simp only [if_neg h3]
        exact hP
    · simp only [if_neg h2]
      exact hP

theorem foldl_preserve_pred {α : Type} (P : SearchState → Prop)
    (f : SearchState → α → SearchState) (hf : ∀ s x, P s → P (f s x)) :
    ∀ (l : List α) (s : SearchState), P s → P (l.foldl f s) := by
  intro l
  induction l with
  | nil => intro s hP; exact hP
  | cons x xs ih =>
      intro s hP
      exact ih (f s x) (hf s x hP)

theorem roundStep_pairSep (st : Optimizer) (cands : List Nat)
    (s : SearchState)
    (hsym : ∀ a b : Int, get_distance st a b = get_distance st b a)
    (hP : pairSeparated st s.medoids) :
    pairSeparated st (roundStep st cands s).medoids := by
  rw [roundStep, one_round]
  exact foldl_preserve_pred (fun t => pairSeparated st t.medoids) _
    (fun s2 i hP2 => foldl_preserve_pred (fun t => pairSeparated st t.medoids) _
      (fun s3 c hP3 => try_candidate_pairSep st s3 i c hsym hP3) cands s2 hP2)
    _ _ hP

theorem search_loop_pairSep (st : Optimizer) (cands : List Nat)
    (hsym : ∀ a b : Int, get_distance st a b = get_distance st b a) :
    ∀ (fuel : Nat) (s : SearchState) (it : Nat),
      pairSeparated st s.medoids →
      pairSeparated st (search_loop st cands s it fuel).1.medoids := by
  intro fuel
  induction fuel with
  | zero => intro s it hP; exact hP
  | succ f ih =>
      intro s it hP
      rw [search_loop]
      by_cases h : s.improved = true ∧ it < max_iterations
      · simp only [if_pos h]
        exact ih (roundStep st cands s) (it + 1)
          (roundStep_pairSep st cands s hsym hP)
      · simp only [if_neg h]
        exact hP

/-- C1 counterexample: over an asymmetric distance table (0 m from id 2
to id 1, 2000 m from id 1 to id 2) with a 1 km minimum separation, the
initializer and the final result both return the medoid set [1, 0]
(ids 2 then 1), whose pair (2, 1) is at distance 0, strictly below the
separation threshold: the separation invariant as stated is violated. -/
theorem c1_counterexample :
    (initialize_medoids c1st (filter_candidates c1st) c1rng).1 = [1, 0] ∧
      (optimize c1st c1rng).medoids = [1, 0] ∧
      1 ∈ (optimize c1st c1rng).medoids ∧
      0 ∈ (optimize c1st c1rng).medoids ∧
      get_distance c1st (pget c1st 1).id (pget c1st 0).id < min_sep_m c1st := by
  decide

/-- C1 (amended): whenever the distance oracle is symmetric, every pair
of distinct members of the medoid set is at distance at least the
configured minimum separation, both for the set produced by the
initializer and for the final set returned by optimize, for every
configuration and every draw stream. -/
theorem c1_separation_of_symm (st : Optimizer) (r : Rng)
    (hsym : ∀ a b : Int, get_distance st a b = get_distance st b a) :
    pairSeparated st (initialize_medoids st (filter_candidates st) r).1 ∧
      pairSeparated st (optimize st r).medoids := by
  refine ⟨initialize_medoids_pairSep st (filter_candidates st) r hsym, ?_⟩
  rw [optimize]
  by_cases h : (filter_candidates st).length < st.k
  · simp only [if_pos h]
    exact pairSeparated_nil st
  · simp only [if_neg h]
    exact search_loop_pairSep st (filter_candidates st) hsym 51 _ 0
      (initialize_medoids_pairSep st (filter_candidates st) r hsym)

/-- C1 witness for the amended claim: the constant table is symmetric. -/
theorem c1_separation_of_symm_witness :
    pairSeparated symSt
        (initialize_medoids symSt (filter_candidates symSt) [0]).1 ∧
      pairSeparated symSt (optimize symSt [0]).medoids :=
  c1_separation_of_symm symSt [0] (fun a b => rfl)

end CenterOptimizer
